import Mathlib

/-!
Verification of the meilisearch durable task scheduler (index-scheduler crate
and its companions).  The data model and the operations below are shallow
embeddings of the Rust source: `meilisearch-types/src/tasks.rs` (tasks, kinds,
statuses, details), `index-scheduler/src/lib.rs` (queries, `register`,
`get_tasks`, the write-back phase of `tick`), `dump/src/lib.rs` (the
`TaskDump`/`KindDump` conversions) and
`meilisearch-http/src/routes/indexes/documents.rs` (`delete_documents`).

Machine integers (u32 task ids, u64 counters, 128-bit uuids) are modelled as
`Nat`; `OffsetDateTime` values are opaque instants modelled as `Int`; roaring
bitmaps are `Finset Nat`; the LMDB `all-tasks` table is an ascending
association list.  The helper functions of `index-scheduler/src/utils.rs` and
the error types of `error.rs` are not part of the staged sources; they are
modelled from the spec where needed, each with a doc comment saying so.
-/

namespace Meili

abbrev TaskId := Nat

/-- An opaque instant (the embedding of `time::OffsetDateTime`). -/
abbrev DateTime := Int

/-- Task lifecycle status, from `meilisearch-types/src/tasks.rs`. -/
inductive Status
  | enqueued
  | processing
  | succeeded
  | failed
  deriving DecidableEq, Repr

/-- The payload-free kind tag, from `meilisearch-types/src/tasks.rs`. -/
inductive Kind
  | documentImport
  | documentDeletion
  | documentClear
  | settings
  | indexCreation
  | indexDeletion
  | indexUpdate
  | indexSwap
  | cancelTask
  | deleteTasks
  | dumpExport
  | snapshot
  deriving DecidableEq, Repr

/-- `milli::update::IndexDocumentsMethod` (declared outside the staged
sources; the spec lists `method ∈ \x7bReplace,Update\x7d`). -/
inductive IndexDocumentsMethod
  | replaceDocuments
  | updateDocuments
  deriving DecidableEq, Repr

/-- Modelled from the spec: `Settings<Unchecked>` lives in
`meilisearch-types/src/settings.rs`, which is not among the staged sources.
The queue treats the settings payload as opaque data, so it is carried as an
abstract token. -/
structure Settings where
  payload : String
  deriving DecidableEq, Repr

/-- Modelled from the spec: API `Key` records live in
`meilisearch-types/src/keys.rs`, which is not among the staged sources; the
queue only carries them inside `DumpExport` payloads. -/
structure Key where
  payload : String
  deriving DecidableEq, Repr

abbrev Uuid := Nat

abbrev InstanceUid := Uuid

/-- Modelled from the spec: `ResponseError` lives in
`meilisearch-types/src/error.rs`, which is not among the staged sources.  The
spec calls it a "structured error"; only its identity matters here. -/
structure ResponseError where
  message : String
  deriving DecidableEq, Repr

/-- The payload-bearing task kind, from `meilisearch-types/src/tasks.rs`. -/
inductive KindWithContent
  | documentImport (index_uid : String) (primary_key : Option String)
      (method : IndexDocumentsMethod) (content_file : Uuid)
      (documents_count : Nat) (allow_index_creation : Bool)
  | documentDeletion (index_uid : String) (documents_ids : List String)
  | documentClear (index_uid : String)
  | settings (index_uid : String) (new_settings : Settings)
      (is_deletion : Bool) (allow_index_creation : Bool)
  | indexDeletion (index_uid : String)
  | indexCreation (index_uid : String) (primary_key : Option String)
  | indexUpdate (index_uid : String) (primary_key : Option String)
  | indexSwap (lhs : String) (rhs : String)
  | cancelTask (tasks : List TaskId)
  | deleteTasks (query : String) (tasks : List TaskId)
  | dumpExport (dump_uid : String) (keys : List Key)
      (instance_uid : Option InstanceUid)
  | snapshot
  deriving DecidableEq, Repr

/-- Kind-specific summary, from `meilisearch-types/src/tasks.rs`. -/
inductive Details
  | documentAddition (received_documents : Nat) (indexed_documents : Option Nat)
  | settings (settings : Settings)
  | indexInfo (primary_key : Option String)
  | documentDeletion (received_document_ids : Nat) (deleted_documents : Option Nat)
  | clearAll (deleted_documents : Option Nat)
  | deleteTasks (matched_tasks : Nat) (deleted_tasks : Option Nat)
      (original_query : String)
  | dump (dump_uid : String)
  deriving DecidableEq, Repr

/-- A task record, from `meilisearch-types/src/tasks.rs`. -/
structure Task where
  uid : TaskId
  enqueued_at : DateTime
  started_at : Option DateTime
  finished_at : Option DateTime
  error : Option ResponseError
  details : Option Details
  status : Status
  kind : KindWithContent
  deriving DecidableEq, Repr

/-- `KindWithContent::as_kind`. -/
def KindWithContent.as_kind : KindWithContent → Kind
  | .documentImport _ _ _ _ _ _ => .documentImport
  | .documentDeletion _ _ => .documentDeletion
  | .documentClear _ => .documentClear
  | .settings _ _ _ _ => .settings
  | .indexCreation _ _ => .indexCreation
  | .indexDeletion _ => .indexDeletion
  | .indexUpdate _ _ => .indexUpdate
  | .indexSwap _ _ => .indexSwap
  | .cancelTask _ => .cancelTask
  | .deleteTasks _ _ => .deleteTasks
  | .dumpExport _ _ _ => .dumpExport
  | .snapshot => .snapshot

/-- `KindWithContent::indexes`. -/
def KindWithContent.indexes : KindWithContent → Option (List String)
  | .dumpExport _ _ _ => none
  | .snapshot => none
  | .cancelTask _ => none
  | .deleteTasks _ _ => none
  | .documentImport index_uid _ _ _ _ _ => some [index_uid]
  | .documentDeletion index_uid _ => some [index_uid]
  | .documentClear index_uid => some [index_uid]
  | .settings index_uid _ _ _ => some [index_uid]
  | .indexCreation index_uid _ => some [index_uid]
  | .indexUpdate index_uid _ => some [index_uid]
  | .indexDeletion index_uid => some [index_uid]
  | .indexSwap lhs rhs => some [lhs, rhs]

/-- `Task::index_uid`. -/
def Task.index_uid (t : Task) : Option String :=
  match t.kind with
  | .dumpExport _ _ _ => none
  | .snapshot => none
  | .cancelTask _ => none
  | .deleteTasks _ _ => none
  | .indexSwap _ _ => none
  | .documentImport index_uid _ _ _ _ _ => some index_uid
  | .documentDeletion index_uid _ => some index_uid
  | .documentClear index_uid => some index_uid
  | .settings index_uid _ _ _ => some index_uid
  | .indexCreation index_uid _ => some index_uid
  | .indexUpdate index_uid _ => some index_uid
  | .indexDeletion index_uid => some index_uid

/-- `Task::indexes`. -/
def Task.indexes (t : Task) : Option (List String) :=
  match t.kind with
  | .dumpExport _ _ _ => none
  | .snapshot => none
  | .cancelTask _ => none
  | .deleteTasks _ _ => none
  | .documentImport index_uid _ _ _ _ _ => some [index_uid]
  | .documentDeletion index_uid _ => some [index_uid]
  | .documentClear index_uid => some [index_uid]
  | .settings index_uid _ _ _ => some [index_uid]
  | .indexCreation index_uid _ => some [index_uid]
  | .indexUpdate index_uid _ => some [index_uid]
  | .indexDeletion index_uid => some [index_uid]
  | .indexSwap lhs rhs => some [lhs, rhs]

/-- `KindWithContent::default_details`.  The `IndexSwap` arm of the source is
`todo!()`, a panic, rendered as `Except.error`. -/
def KindWithContent.default_details : KindWithContent → Except String (Option Details)
  | .documentImport _ _ _ _ documents_count _ =>
      .ok (some (.documentAddition documents_count (some 0)))
  | .documentDeletion _ documents_ids =>
      .ok (some (.documentDeletion documents_ids.length none))
  | .documentClear _ => .ok (some (.clearAll none))
  | .settings _ new_settings _ _ => .ok (some (.settings new_settings))
  | .indexDeletion _ => .ok none
  | .indexCreation _ primary_key => .ok (some (.indexInfo primary_key))
  | .indexUpdate _ primary_key => .ok (some (.indexInfo primary_key))
  | .indexSwap _ _ => .error "not yet implemented"
  | .cancelTask _ => .ok none
  | .deleteTasks query tasks =>
      .ok (some (.deleteTasks tasks.length none query))
  | .dumpExport _ _ _ => .ok none
  | .snapshot => .ok none

/-- `impl From<&KindWithContent> for Option<Details>`
(`meilisearch-types/src/tasks.rs`): the conversion used by
`IndexScheduler::register` to initialise `task.details`.  The `DeleteTasks`
arm of the source is `todo!()`, a panic, rendered as `Except.error`. -/
def optionDetailsOfKind : KindWithContent → Except String (Option Details)
  | .documentImport _ _ _ _ documents_count _ =>
      .ok (some (.documentAddition documents_count none))
  | .documentDeletion _ _ => .ok none
  | .documentClear _ => .ok none
  | .settings _ new_settings _ _ => .ok (some (.settings new_settings))
  | .indexDeletion _ => .ok none
  | .indexCreation _ primary_key => .ok (some (.indexInfo primary_key))
  | .indexUpdate _ primary_key => .ok (some (.indexInfo primary_key))
  | .indexSwap _ _ => .ok none
  | .cancelTask _ => .ok none
  | .deleteTasks _ _ => .error "not yet implemented"
  | .dumpExport dump_uid _ _ => .ok (some (.dump dump_uid))
  | .snapshot => .ok none

/-- Modelled from the spec: the scheduler error taxonomy of
`index-scheduler/src/error.rs`, which is not among the staged sources.  The
spec (§7) lists the kinds verbatim. -/
inductive Error
  | ioError (msg : String)
  | kvError (msg : String)
  | corruptedTaskQueue
  | indexNotFound (index : String)
  | indexAlreadyExists (index : String)
  | invalidQuery
  | payloadError (msg : String)
  | batchExecutionError (msg : String)
  deriving DecidableEq, Repr

/-- Modelled from the spec: the `impl From<Error> for ResponseError` used in
`tick` (`let error: ResponseError = err.into()`); the conversion wraps the
scheduler error as a structured response error. -/
def Error.intoResponseError : Error → ResponseError
  | .ioError msg => { message := "io error: " ++ msg }
  | .kvError msg => { message := "kv error: " ++ msg }
  | .corruptedTaskQueue => { message := "corrupted task queue" }
  | .indexNotFound index => { message := "index not found: " ++ index }
  | .indexAlreadyExists index => { message := "index already exists: " ++ index }
  | .invalidQuery => { message := "invalid query" }
  | .payloadError msg => { message := "payload error: " ++ msg }
  | .batchExecutionError msg => { message := "batch execution error: " ++ msg }

/-- The four queue tables of the LMDB environment
(`index-scheduler/src/lib.rs`, `db_name`): `all-tasks` as an ascending
association list (LMDB iterates keys in order), and the three secondary
bitmap tables as total functions, an absent key holding the empty bitmap. -/
structure TaskStore where
  all_tasks : List (TaskId × Task)
  status : Status → Finset TaskId
  kind : Kind → Finset TaskId
  index_tasks : String → Finset TaskId

/-- The scheduler state visible to `register`/`get_tasks`/`tick`: the
persistent tables plus the in-memory
`processing_tasks: (OffsetDateTime, RoaringBitmap)` pair. -/
structure SchedulerState where
  store : TaskStore
  processing_tasks : DateTime × Finset TaskId

/-- `Query` (`index-scheduler/src/lib.rs`). -/
structure Query where
  limit : Nat
  «from» : Option TaskId
  status : Option (List Status)
  kind : Option (List Kind)
  index_uid : Option (List String)
  uid : Option (List TaskId)
  deriving DecidableEq, Repr

/-- `DEFAULT_LIMIT` is 20. -/
def DEFAULT_LIMIT : Nat := 20

/-- `impl Default for Query`. -/
def Query.default : Query :=
  { limit := DEFAULT_LIMIT, «from» := none, status := none, kind := none,
    index_uid := none, uid := none }

/-- `Query::with_status`. -/
def Query.with_status (q : Query) (s : Status) : Query :=
  let status_vec := q.status.getD []
  { q with status := some (status_vec ++ [s]) }

/-- `Query::with_kind`. -/
def Query.with_kind (q : Query) (k : Kind) : Query :=
  let kind_vec := q.kind.getD []
  { q with kind := some (kind_vec ++ [k]) }

/-- `Query::with_index`. -/
def Query.with_index (q : Query) (index_uid : String) : Query :=
  let index_vec := q.index_uid.getD []
  { q with index_uid := some (index_vec ++ [index_uid]) }

/-- `Query::with_uid`. -/
def Query.with_uid (q : Query) (uid : TaskId) : Query :=
  let task_vec := q.uid.getD []
  { q with uid := some (task_vec ++ [uid]) }

/-- `Query::with_limit`. -/
def Query.with_limit (q : Query) (limit : Nat) : Query :=
  { q with limit := limit }

/-- Modelled from the spec: `last_task_id` lives in
`index-scheduler/src/utils.rs`, which is not among the staged sources.  Per
the spec, ids are allocated "one past the max existing key in `all-tasks`"
and the query engine returns `[]` when the queue is empty, so the helper
yields one past the maximal key of `all-tasks`, or `none` on an empty table
(the repository's own test `process_tasks_inserted_without_new_signal` pins
this reading: a default query over three stored tasks returns all three). -/
def last_task_id (s : TaskStore) : Option TaskId :=
  s.all_tasks.getLast?.map (fun kv => kv.1 + 1)

/-- Modelled from the spec: `next_task_id` = "one past the max existing key
in `all-tasks`" (spec §4.5, Registration step 2). -/
def next_task_id (s : TaskStore) : TaskId :=
  (last_task_id s).getD 0

/-- Modelled from the spec: `get_task` of `utils.rs`, a plain lookup of
`all-tasks[uid]`. -/
def get_task (s : TaskStore) (uid : TaskId) : Option Task :=
  (s.all_tasks.find? (fun kv => kv.1 == uid)).map Prod.snd

/-- Modelled from the spec: `get_existing_tasks` of `utils.rs`: load the
record of every given id; an id listed in a bitmap but missing from
`all-tasks` is a `CorruptedTaskQueue` invariant violation (spec §7). -/
def get_existing_tasks (s : TaskStore) : List TaskId → Except Error (List Task)
  | [] => .ok []
  | id :: rest =>
      match get_task s id with
      | none => .error .corruptedTaskQueue
      | some t =>
          match get_existing_tasks s rest with
          | .error e => .error e
          | .ok l => .ok (t :: l)

/-- Modelled from the spec: `get_status` of `utils.rs`; an unknown key yields
the empty bitmap (spec: "Unknown index names or kinds yield empty bitmaps"). -/
def get_status (s : TaskStore) (st : Status) : Finset TaskId :=
  s.status st

/-- Modelled from the spec: `get_kind` of `utils.rs`. -/
def get_kind (s : TaskStore) (k : Kind) : Finset TaskId :=
  s.kind k

/-- Modelled from the spec: `get_index` of `utils.rs`. -/
def get_index (s : TaskStore) (index : String) : Finset TaskId :=
  s.index_tasks index

/-- Modelled from the spec: `update_status` of `utils.rs`, a
read-modify-write of one `status` bitmap. -/
def update_status (s : TaskStore) (st : Status)
    (f : Finset TaskId → Finset TaskId) : TaskStore :=
  { s with status := Function.update s.status st (f (s.status st)) }

/-- Modelled from the spec: `update_kind` of `utils.rs`. -/
def update_kind (s : TaskStore) (k : Kind)
    (f : Finset TaskId → Finset TaskId) : TaskStore :=
  { s with kind := Function.update s.kind k (f (s.kind k)) }

/-- Modelled from the spec: `update_index` of `utils.rs`. -/
def update_index (s : TaskStore) (index : String)
    (f : Finset TaskId → Finset TaskId) : TaskStore :=
  { s with index_tasks := Function.update s.index_tasks index (f (s.index_tasks index)) }

/-- Modelled from the spec: `update_task` of `utils.rs` (spec §4.5, Update):
rewrite `all-tasks[uid]` and reconcile the secondary indexes — if `status`
changed, move the uid from the old bitmap to the new, and the same for
`kind`; `index-tasks` membership is immutable.  A uid with no stored record
is a `CorruptedTaskQueue` violation. -/
def update_task (s : TaskStore) (task : Task) : Except Error TaskStore :=
  match get_task s task.uid with
  | none => .error .corruptedTaskQueue
  | some old =>
      let s1 : TaskStore :=
        { s with all_tasks :=
            s.all_tasks.map (fun kv => if kv.1 == task.uid then (kv.1, task) else kv) }
      let s2 : TaskStore :=
        if old.status = task.status then s1
        else
          update_status (update_status s1 old.status (fun bm => bm.erase task.uid))
            task.status (fun bm => insert task.uid bm)
      let s3 : TaskStore :=
        if old.kind.as_kind = task.kind.as_kind then s2
        else
          update_kind (update_kind s2 old.kind.as_kind (fun bm => bm.erase task.uid))
            task.kind.as_kind (fun bm => insert task.uid bm)
      .ok s3

/-- The `if let Some(indexes) = task.indexes()` loop of `register`: insert
the uid into `index-tasks[i]` for every reported index. -/
def registerIndexes (s : TaskStore) (task : Task) : TaskStore :=
  match task.indexes with
  | some indexes =>
      indexes.foldl (fun acc index =>
        update_index acc index (fun bm => insert task.uid bm)) s
  | none => s

/-- The table writes of `IndexScheduler::register`, in source order: append
the record to `all-tasks`, insert the uid into `index-tasks[i]` for every
reported index, then into `status[Enqueued]` and `kind[as_kind]`. -/
def registerTables (s : TaskStore) (task : Task) : TaskStore :=
  update_kind
    (update_status
      (registerIndexes { s with all_tasks := s.all_tasks ++ [(task.uid, task)] } task)
      .enqueued (fun bm => insert task.uid bm))
    task.kind.as_kind (fun bm => insert task.uid bm)

/-- `IndexScheduler::register` (`index-scheduler/src/lib.rs`).  Storage is
assumed healthy (the txn commits); the one failure modelled is the `todo!()`
panic reached through `details: (&task).into()` for a `DeleteTasks` kind,
rendered as `Except.error`.  (The `todo!()` on the commit-failure path is
behind a storage error and out of scope.) -/
def register (st : SchedulerState) (now : DateTime) (kind : KindWithContent) :
    Except String (Task × SchedulerState) :=
  match optionDetailsOfKind kind with
  | .error e => .error e
  | .ok details =>
      let task : Task :=
        { uid := next_task_id st.store
          enqueued_at := now
          started_at := none
          finished_at := none
          error := none
          details := details
          status := .enqueued
          kind := kind }
      .ok (task, { st with store := registerTables st.store task })

/-- The `tasks &= RoaringBitmap::from_iter(uids)` step of `get_tasks`
(intersection with the queried uid list, absent filter = identity). -/
def filterUids (uids? : Option (List TaskId)) (l : List TaskId) : List TaskId :=
  match uids? with
  | some uids => l.filter (fun id => uids.contains id)
  | none => l

/-- The `for x in xs { acc |= bitmap_of(x) }` pattern of `get_tasks`:
the union of the stored bitmaps of the queried values. -/
def unionBitmaps {α : Type} (g : α → Finset TaskId) (xs : List α) : Finset TaskId :=
  xs.foldl (fun acc x => acc ∪ g x) ∅

/-- One optional-filter step of `get_tasks`: build the union of the stored
bitmaps of the queried values and intersect the candidates with it; an
absent filter leaves the candidates unchanged. -/
def filterBitmap {α : Type} (opt : Option (List α)) (g : α → Finset TaskId)
    (l : List TaskId) : List TaskId :=
  match opt with
  | some xs => l.filter (fun id => decide (id ∈ unionBitmaps g xs))
  | none => l

/-- The candidate-id computation of `get_tasks`, in source order: the
ascending range `0..last_task_id` (with
`last_task_id = query.from.map(|f| f.min(tid)).unwrap_or(tid)`), then the
uid, status, kind and index filters. -/
def queryCandidates (s : TaskStore) (q : Query) (tid : TaskId) : List TaskId :=
  let last : TaskId :=
    match q.«from» with
    | some f => min f tid
    | none => tid
  filterBitmap q.index_uid (get_index s)
    (filterBitmap q.kind (get_kind s)
      (filterBitmap q.status (get_status s)
        (filterUids q.uid (List.range last))))

/-- The processing overlay of `get_tasks`: when the in-memory
`processing_tasks` bitmap is non-empty, rewrite every selected task whose id
is in it to status `Processing` with the processing start date. -/
def applyProcessing (p : DateTime × Finset TaskId) (recs : List Task) : List Task :=
  if p.2 = ∅ then recs
  else
    recs.map (fun task =>
      if task.uid ∈ p.2 then
        { task with status := .processing, started_at := some p.1 }
      else task)

/-- `IndexScheduler::get_tasks` (`index-scheduler/src/lib.rs`): candidates
are `RoaringBitmap::from_sorted_iter(0..last_task_id)` narrowed by the four
filters (`queryCandidates`), then the `limit` highest ids
(`.rev().take(limit)`) are loaded and the in-memory processing overlay
applied. -/
def get_tasks (st : SchedulerState) (q : Query) : Except Error (List Task) :=
  match last_task_id st.store with
  | none => .ok []
  | some tid =>
      match get_existing_tasks st.store
          ((queryCandidates st.store q tid).reverse.take q.limit) with
      | .error e => .error e
      | .ok recs => .ok (applyProcessing st.processing_tasks recs)

/-- The record patch of `tick`'s success loop: `task.started_at = Some(started_at);
task.finished_at = Some(finished_at)` before `update_task`. -/
def finishRecord (started_at finished_at : DateTime) (task : Task) : Task :=
  { task with started_at := some started_at, finished_at := some finished_at }

/-- The record patch of `tick`'s failure loop: the same timestamps plus
`status = Failed` and the shared error. -/
def failRecord (started_at finished_at : DateTime) (error : ResponseError)
    (task : Task) : Task :=
  { task with
      started_at := some started_at
      finished_at := some finished_at
      status := .failed
      error := some error }

/-- One iteration of `tick`'s failure loop (`for id in ids`): load the task
(`CorruptedTaskQueue` if absent), patch it with `failRecord`, write it back. -/
def failStep (started_at finished_at : DateTime) (error : ResponseError)
    (s : TaskStore) (id : TaskId) : Except Error TaskStore :=
  match get_task s id with
  | none => .error .corruptedTaskQueue
  | some task => update_task s (failRecord started_at finished_at error task)

/-- The write-back phase of `IndexScheduler::tick`
(`index-scheduler/src/lib.rs`): after `process_batch` returns, one write
transaction patches every task record and commits, and `processing_tasks` is
reset to `(finished_at, ∅)`.  `ids` is the sorted id list of the batch and
`res` the processor's result. -/
def tick_write (st : SchedulerState) (ids : List TaskId)
    (started_at finished_at : DateTime) (res : Except Error (List Task)) :
    Except Error SchedulerState :=
  match res with
  | .ok tasks =>
      match tasks.foldlM (fun s task =>
          update_task s (finishRecord started_at finished_at task)) st.store with
      | .error e => .error e
      | .ok s => .ok { store := s, processing_tasks := (finished_at, ∅) }
  | .error err =>
      let error := err.intoResponseError
      match ids.foldlM (failStep started_at finished_at error) st.store with
      | .error e => .error e
      | .ok s => .ok { store := s, processing_tasks := (finished_at, ∅) }

/-- The query built by `IndexStats::new`
(`meilisearch-http/src/routes/indexes/mod.rs`):
`Query::default().with_status(Processing).with_index(uid).with_limit(1)`. -/
def isIndexingQuery (index_uid : String) : Query :=
  ((Query.default.with_status .processing).with_index index_uid).with_limit 1

/-- The `is_indexing` computation of `IndexStats::new`: run the query and
test the returned list for non-emptiness. -/
def is_indexing (st : SchedulerState) (index_uid : String) : Except Error Bool :=
  match get_tasks st (isIndexingQuery index_uid) with
  | .error e => .error e
  | .ok processing_task => .ok (!processing_task.isEmpty)

/-! ### The dump conversions (`dump/src/lib.rs`) -/

/-- The payload-free dump form of a kind, from `dump/src/lib.rs`. -/
inductive KindDump
  | documentImport (primary_key : Option String) (method : IndexDocumentsMethod)
      (documents_count : Nat) (allow_index_creation : Bool)
  | documentDeletion (documents_ids : List String)
  | documentClear
  | settings (settings : Settings) (is_deletion : Bool) (allow_index_creation : Bool)
  | indexDeletion
  | indexCreation (primary_key : Option String)
  | indexUpdate (primary_key : Option String)
  | indexSwap (lhs : String) (rhs : String)
  | cancelTask (tasks : List TaskId)
  | deleteTasks (query : String) (tasks : List TaskId)
  | dumpExport
  | snapshot
  deriving DecidableEq, Repr

/-- A task as written to a dump, from `dump/src/lib.rs`. -/
structure TaskDump where
  uid : TaskId
  index_uid : Option String
  status : Status
  kind : KindDump
  details : Option Details
  error : Option ResponseError
  enqueued_at : DateTime
  started_at : Option DateTime
  finished_at : Option DateTime
  deriving DecidableEq, Repr

/-- `impl From<KindWithContent> for KindDump`. -/
def KindDump.of_kind_with_content : KindWithContent → KindDump
  | .documentImport _ primary_key method _ documents_count allow_index_creation =>
      .documentImport primary_key method documents_count allow_index_creation
  | .documentDeletion _ documents_ids => .documentDeletion documents_ids
  | .documentClear _ => .documentClear
  | .settings _ new_settings is_deletion allow_index_creation =>
      .settings new_settings is_deletion allow_index_creation
  | .indexDeletion _ => .indexDeletion
  | .indexCreation _ primary_key => .indexCreation primary_key
  | .indexUpdate _ primary_key => .indexUpdate primary_key
  | .indexSwap lhs rhs => .indexSwap lhs rhs
  | .cancelTask tasks => .cancelTask tasks
  | .deleteTasks query tasks => .deleteTasks query tasks
  | .dumpExport _ _ _ => .dumpExport
  | .snapshot => .snapshot

/-- `impl From<Task> for TaskDump`. -/
def TaskDump.of_task (task : Task) : TaskDump :=
  { uid := task.uid
    index_uid := task.index_uid
    status := task.status
    kind := KindDump.of_kind_with_content task.kind
    details := task.details
    error := task.error
    enqueued_at := task.enqueued_at
    started_at := task.started_at
    finished_at := task.finished_at }

/-! ### The document-deletion route (`meilisearch-http/src/routes/indexes/documents.rs`) -/

/-- `serde_json::Value`, with JSON numbers restricted to the integers (the
document ids meilisearch accepts; float formatting plays no part in the
claims settled here). -/
inductive Value
  | null
  | bool (b : Bool)
  | num (n : Int)
  | str (s : String)
  | arr (vs : List Value)
  | obj (fields : List (String × Value))

/-- `Value::as_str`: the borrowed string of a string value, `None` otherwise. -/
def Value.as_str : Value → Option String
  | .str s => some s
  | _ => none

/-- serde_json's string escaping: `"` and `\` get a backslash, the control
characters get their short escapes or `\u00XX`. -/
def jsonEscapeChar (c : Char) : String :=
  if c = '"' then "\\\""
  else if c = '\\' then "\\\\"
  else if c = Char.ofNat 8 then "\\b"
  else if c = Char.ofNat 9 then "\\t"
  else if c = Char.ofNat 10 then "\\n"
  else if c = Char.ofNat 12 then "\\f"
  else if c = Char.ofNat 13 then "\\r"
  else if c.toNat < 32 then
    "\\u00" ++ String.singleton (Nat.digitChar (c.toNat / 16))
      ++ String.singleton (Nat.digitChar (c.toNat % 16))
  else String.singleton c

/-- serde_json's quoted string serialization. -/
def jsonQuote (s : String) : String :=
  "\"" ++ String.join (s.toList.map jsonEscapeChar) ++ "\""

/-- Comma-join, used by the compact array/object serialization. -/
def Value.joinComma : List String → String
  | [] => ""
  | [s] => s
  | s :: rest => s ++ "," ++ Value.joinComma rest

mutual

/-- `Value::to_string`: serde_json's compact serialization (`Display` for
`Value`). -/
def Value.to_string : Value → String
  | .null => "null"
  | .bool true => "true"
  | .bool false => "false"
  | .num n => toString n
  | .str s => jsonQuote s
  | .arr vs => "[" ++ Value.joinComma (Value.listToString vs) ++ "]"
  | .obj fields => "\x7b" ++ Value.joinComma (Value.fieldsToString fields) ++ "\x7d"

def Value.listToString : List Value → List String
  | [] => []
  | v :: vs => Value.to_string v :: Value.listToString vs

def Value.fieldsToString : List (String × Value) → List String
  | [] => []
  | (k, v) :: fields => (jsonQuote k ++ ":" ++ Value.to_string v) :: Value.fieldsToString fields

end

/-- The id extraction of `delete_documents`:
`v.as_str().map(String::from).unwrap_or_else(|| v.to_string())` over the
JSON array body. -/
def deleteDocumentsIds (body : List Value) : List String :=
  body.map (fun v => (v.as_str.map id).getD v.to_string)

/-- `delete_documents`: the `DocumentDeletion` kind the route registers for
an index and a JSON array body. -/
def delete_documents (index_uid : String) (body : List Value) : KindWithContent :=
  .documentDeletion index_uid (deleteDocumentsIds body)

/-! ### Store invariants -/

/-- Key/record agreement of `all-tasks`: the record stored under key `id`
carries `uid = id`. -/
def UidKeyed (s : TaskStore) : Prop :=
  ∀ id u, get_task s id = some u → u.uid = id

/-- The table invariants the spec states for the queue (§3, §8): key/record
agreement plus coherence of the three secondary bitmap tables with the
stored records. -/
structure StoreWF (s : TaskStore) : Prop where
  uid_keyed : UidKeyed s
  status_mem : ∀ x id, id ∈ s.status x → ∃ u, get_task s id = some u ∧ u.status = x
  kind_mem : ∀ x id, id ∈ s.kind x → ∃ u, get_task s id = some u ∧ u.kind.as_kind = x
  index_mem : ∀ x id, id ∈ s.index_tasks x →
    ∃ u, get_task s id = some u ∧ x ∈ (Task.indexes u).getD []

/-- The per-task membership invariant of spec §3/§8: every stored task is in
the status bitmap of its status, the kind bitmap of its kind tag, and the
index bitmap of every index it reports. -/
def TaskMemInv (s : TaskStore) : Prop :=
  ∀ kv ∈ s.all_tasks,
    (kv.2).uid ∈ s.status (kv.2).status ∧
    (kv.2).uid ∈ s.kind (kv.2).kind.as_kind ∧
    ∀ i ∈ (Task.indexes kv.2).getD [], (kv.2).uid ∈ s.index_tasks i

/-! ### The claim-side specification functions -/

/-- The mapping C9 states for `delete_documents` bodies: a JSON string is
used verbatim as a document id, any other value is replaced by its compact
JSON serialization. -/
def claimDocumentId : Value → String
  | .str s => s
  | v => v.to_string

/-- The field preservation C10 states for the `KindWithContent → KindDump`
conversion, written per constructor: only the embedded `index_uid`, the
`DocumentImport` `content_file` uuid and the `DumpExport` payload are
dropped; every other payload field reappears in the dump kind. -/
def kindDumpPreserves (k : KindWithContent) : Prop :=
  match k with
  | .documentImport _ primary_key method _ documents_count allow_index_creation =>
      KindDump.of_kind_with_content k =
        .documentImport primary_key method documents_count allow_index_creation
  | .documentDeletion _ documents_ids =>
      KindDump.of_kind_with_content k = .documentDeletion documents_ids
  | .documentClear _ => KindDump.of_kind_with_content k = .documentClear
  | .settings _ new_settings is_deletion allow_index_creation =>
      KindDump.of_kind_with_content k =
        .settings new_settings is_deletion allow_index_creation
  | .indexDeletion _ => KindDump.of_kind_with_content k = .indexDeletion
  | .indexCreation _ primary_key =>
      KindDump.of_kind_with_content k = .indexCreation primary_key
  | .indexUpdate _ primary_key =>
      KindDump.of_kind_with_content k = .indexUpdate primary_key
  | .indexSwap lhs rhs => KindDump.of_kind_with_content k = .indexSwap lhs rhs
  | .cancelTask tasks => KindDump.of_kind_with_content k = .cancelTask tasks
  | .deleteTasks query tasks =>
      KindDump.of_kind_with_content k = .deleteTasks query tasks
  | .dumpExport _ _ _ => KindDump.of_kind_with_content k = .dumpExport
  | .snapshot => KindDump.of_kind_with_content k = .snapshot

/-! ### Concrete fixtures for counterexamples and witnesses -/

def exTask0 : Task :=
  { uid := 0, enqueued_at := 0, started_at := none, finished_at := none,
    error := none, details := some (.indexInfo none), status := .enqueued,
    kind := .indexCreation "catto" none }

def exTask1 : Task :=
  { uid := 1, enqueued_at := 1, started_at := none, finished_at := none,
    error := none, details := none, status := .enqueued,
    kind := .documentClear "catto" }

def exTask2 : Task :=
  { uid := 2, enqueued_at := 2, started_at := none, finished_at := none,
    error := none, details := none, status := .enqueued, kind := .snapshot }

/-- A queue holding the single enqueued task 0, with coherent bitmap tables. -/
def exStore1 : TaskStore :=
  { all_tasks := [(0, exTask0)]
    status := fun s => if s = .enqueued then {0} else ∅
    kind := fun k => if k = .indexCreation then {0} else ∅
    index_tasks := fun i => if i = "catto" then {0} else ∅ }

/-- A queue holding the three enqueued tasks 0, 1, 2. -/
def exStore3 : TaskStore :=
  { all_tasks := [(0, exTask0), (1, exTask1), (2, exTask2)]
    status := fun s => if s = .enqueued then {0, 1, 2} else ∅
    kind := fun k =>
      if k = .indexCreation then {0}
      else if k = .documentClear then {1}
      else if k = .snapshot then {2} else ∅
    index_tasks := fun i => if i = "catto" then {0, 1} else ∅ }

def exSt1 : SchedulerState := { store := exStore1, processing_tasks := (0, ∅) }

def exSt3 : SchedulerState := { store := exStore3, processing_tasks := (0, ∅) }

/-- `exStore1` while task 0 is being processed (batch started at instant 5):
persistent storage still records it as Enqueued. -/
def exStProc : SchedulerState := { store := exStore1, processing_tasks := (5, {0}) }

def exStEmpty : SchedulerState :=
  { store := { all_tasks := [], status := fun _ => ∅, kind := fun _ => ∅,
               index_tasks := fun _ => ∅ }
    processing_tasks := (0, ∅) }

/-- The default query restricted to `from = 1`. -/
def exQueryFrom1 : Query :=
  { limit := 20, «from» := some 1, status := none, kind := none,
    index_uid := none, uid := none }

def exFilterQuery : Query := (Query.default.with_status .enqueued).with_index "catto"

/-- Task 0 as the processing overlay of `exStProc` reports it. -/
def exOverTask0 : Task := { exTask0 with status := .processing, started_at := some 5 }

def exRegPairC2 : Task × SchedulerState :=
  match register exStEmpty 3 (.indexCreation "catto" (some "mouse")) with
  | .ok p => p
  | .error _ => (exTask0, exStEmpty)

def exRegPairSwap : Task × SchedulerState :=
  match register exStEmpty 0 (.indexSwap "catto" "doggo") with
  | .ok p => p
  | .error _ => (exTask0, exStEmpty)

def exTickState : SchedulerState :=
  match tick_write exSt1 [0] 10 20 (.error (.indexNotFound "catto")) with
  | .ok s => s
  | .error _ => exSt1

def exFromResult : List Task :=
  match get_tasks exSt3 exQueryFrom1 with
  | .ok l => l
  | .error _ => []

/-! ### Auxiliary lemmas -/

theorem Task.indexes_eq_kind_indexes (t : Task) : t.indexes = t.kind.indexes := by
  cases t with
  | mk uid enq st fi er de stat k => cases k <;> rfl

theorem uidKeyed_of_entries (s : TaskStore)
    (h : ∀ kv ∈ s.all_tasks, (kv.2).uid = kv.1) : UidKeyed s := by
  intro id u hu
  unfold get_task at hu
  cases hfind : s.all_tasks.find? (fun kv => kv.1 == id) with
  | none => rw [hfind] at hu; cases hu
  | some kv =>
      rw [hfind] at hu
      have hk := List.find?_some hfind
      have hmem := List.mem_of_find?_eq_some hfind
      have hu2 : u = kv.2 := by simpa using hu.symm
      subst hu2
      have hkey : kv.1 = id := by simpa using hk
      rw [h kv hmem, hkey]

theorem get_existing_tasks_forall₂ (s : TaskStore) :
    ∀ (ids : List TaskId) (l : List Task), get_existing_tasks s ids = .ok l →
      List.Forall₂ (fun id t => get_task s id = some t) ids l := by
  intro ids
  induction ids with
  | nil =>
      intro l h
      unfold get_existing_tasks at h
      injection h with h
      rw [← h]
      exact List.Forall₂.nil
  | cons a rest ih =>
      intro l h
      unfold get_existing_tasks at h
      cases ha : get_task s a with
      | none => rw [ha] at h; cases h
      | some t =>
          rw [ha] at h
          cases hr : get_existing_tasks s rest with
          | error e => rw [hr] at h; cases h
          | ok l2 =>
              rw [hr] at h
              injection h with h
              rw [← h]
              exact List.Forall₂.cons ha (ih l2 hr)

theorem get_existing_tasks_mem (s : TaskStore) (ids : List TaskId) (l : List Task)
    (h : get_existing_tasks s ids = .ok l) (t : Task) (ht : t ∈ l) :
    ∃ id ∈ ids, get_task s id = some t := by
  have hf := get_existing_tasks_forall₂ s ids l h
  clear h
  revert ht
  induction hf with
  | nil => intro ht; cases ht
  | cons hrel _ ih =>
      intro ht
      rcases List.mem_cons.1 ht with h1 | h2
      · exact ⟨_, List.mem_cons_self _ _, h1 ▸ hrel⟩
      · obtain ⟨id, hid, hg⟩ := ih h2
        exact ⟨id, List.mem_cons_of_mem _ hid, hg⟩

theorem get_existing_tasks_length (s : TaskStore) (ids : List TaskId) (l : List Task)
    (h : get_existing_tasks s ids = .ok l) : l.length = ids.length :=
  (get_existing_tasks_forall₂ s ids l h).length_eq.symm

theorem get_existing_tasks_map_uid (s : TaskStore) (hkey : UidKeyed s) :
    ∀ (ids : List TaskId) (l : List Task), get_existing_tasks s ids = .ok l →
      l.map Task.uid = ids := by
  intro ids
  induction ids with
  | nil =>
      intro l h
      unfold get_existing_tasks at h
      injection h with h
      rw [← h]
      rfl
  | cons a rest ih =>
      intro l h
      unfold get_existing_tasks at h
      cases ha : get_task s a with
      | none => rw [ha] at h; cases h
      | some t =>
          rw [ha] at h
          cases hr : get_existing_tasks s rest with
          | error e => rw [hr] at h; cases h
          | ok l2 =>
              rw [hr] at h
              injection h with h
              rw [← h, List.map_cons, hkey a t ha, ih l2 hr]

theorem applyProcessing_length (p : DateTime × Finset TaskId) (recs : List Task) :
    (applyProcessing p recs).length = recs.length := by
  unfold applyProcessing
  split
  · rfl
  · exact List.length_map _ _

theorem applyProcessing_map_uid (p : DateTime × Finset TaskId) (recs : List Task) :
    (applyProcessing p recs).map Task.uid = recs.map Task.uid := by
  unfold applyProcessing
  split
  · rfl
  · rw [List.map_map]
    apply List.map_congr_left
    intro t _
    by_cases hm : t.uid ∈ p.2 <;> simp [hm, Function.comp]

theorem applyProcessing_spec (p : DateTime × Finset TaskId) (recs : List Task)
    (t : Task) (ht : t ∈ applyProcessing p recs) :
    ∃ u ∈ recs, t.uid = u.uid ∧ t.kind = u.kind ∧
      (t.uid ∈ p.2 → t = { u with status := .processing, started_at := some p.1 }) ∧
      (t.uid ∉ p.2 → t = u) := by
  unfold applyProcessing at ht
  split at ht
  case isTrue hemp =>
      refine ⟨t, ht, rfl, rfl, ?_, fun _ => rfl⟩
      intro hmem
      rw [hemp] at hmem
      exact absurd hmem (Finset.not_mem_empty _)
  case isFalse =>
      obtain ⟨u, hu, heq⟩ := List.mem_map.1 ht
      by_cases hm : u.uid ∈ p.2
      · rw [if_pos hm] at heq
        subst heq
        exact ⟨u, hu, rfl, rfl, fun _ => rfl, fun hnot => absurd hm hnot⟩
      · rw [if_neg hm] at heq
        subst heq
        exact ⟨u, hu, rfl, rfl, fun hmem => absurd hmem hm, fun _ => rfl⟩

theorem mem_unionBitmaps {α : Type} (g : α → Finset TaskId) (xs : List α) (id : TaskId) :
    id ∈ unionBitmaps g xs ↔ ∃ x ∈ xs, id ∈ g x := by
  have key : ∀ (ys : List α) (acc : Finset TaskId),
      id ∈ ys.foldl (fun a x => a ∪ g x) acc ↔ id ∈ acc ∨ ∃ x ∈ ys, id ∈ g x := by
    intro ys
    induction ys with
    | nil => intro acc; simp
    | cons x ys ih =>
        intro acc
        rw [List.foldl_cons, ih]
        simp [Finset.mem_union, or_assoc]
  simpa [unionBitmaps] using key xs ∅

theorem mem_filterBitmap {α : Type} (opt : Option (List α)) (g : α → Finset TaskId)
    (l : List TaskId) (id : TaskId) (h : id ∈ filterBitmap opt g l) :
    id ∈ l ∧ ∀ xs, opt = some xs → ∃ x ∈ xs, id ∈ g x := by
  cases opt with
  | none => exact ⟨h, fun xs hxs => by cases hxs⟩
  | some xs =>
      have h2 := List.mem_filter.1 h
      refine ⟨h2.1, fun xs2 hxs2 => ?_⟩
      have he : xs = xs2 := by injection hxs2
      subst he
      exact (mem_unionBitmaps g xs id).1 (by simpa using h2.2)

theorem mem_filterUids (uids? : Option (List TaskId)) (l : List TaskId) (id : TaskId)
    (h : id ∈ filterUids uids? l) :
    id ∈ l ∧ ∀ uids, uids? = some uids → id ∈ uids := by
  cases uids? with
  | none => exact ⟨h, fun uids huids => by cases huids⟩
  | some uids =>
      have h2 := List.mem_filter.1 h
      refine ⟨h2.1, fun uids2 huids2 => ?_⟩
      injection huids2 with he
      subst he
      simpa using h2.2

theorem mem_queryCandidates (s : TaskStore) (q : Query) (tid : TaskId) (id : TaskId)
    (h : id ∈ queryCandidates s q tid) :
    (∀ uids, q.uid = some uids → id ∈ uids) ∧
    (∀ xs, q.status = some xs → ∃ x ∈ xs, id ∈ get_status s x) ∧
    (∀ xs, q.kind = some xs → ∃ x ∈ xs, id ∈ get_kind s x) ∧
    (∀ xs, q.index_uid = some xs → ∃ x ∈ xs, id ∈ get_index s x) := by
  unfold queryCandidates at h
  obtain ⟨h3, hidx⟩ := mem_filterBitmap _ _ _ _ h
  obtain ⟨h2, hkind⟩ := mem_filterBitmap _ _ _ _ h3
  obtain ⟨h1, hstat⟩ := mem_filterBitmap _ _ _ _ h2
  obtain ⟨h0, huid⟩ := mem_filterUids _ _ _ h1
  exact ⟨huid, hstat, hkind, hidx⟩

theorem get_tasks_ok_elim (st : SchedulerState) (q : Query) (l : List Task)
    (h : get_tasks st q = .ok l) :
    (last_task_id st.store = none ∧ l = []) ∨
    ∃ tid recs, last_task_id st.store = some tid ∧
      get_existing_tasks st.store
        ((queryCandidates st.store q tid).reverse.take q.limit) = .ok recs ∧
      l = applyProcessing st.processing_tasks recs := by
  unfold get_tasks at h
  split at h
  next heq =>
      injection h with h
      exact Or.inl ⟨heq, h.symm⟩
  next tid heq =>
      split at h
      next e heq2 => cases h
      next recs heq2 =>
          injection h with h
          exact Or.inr ⟨tid, recs, heq, heq2, h.symm⟩

theorem find_key_map (l : List (TaskId × Task)) (f : TaskId × Task → TaskId × Task)
    (hf : ∀ kv, (f kv).1 = kv.1) (x : TaskId) :
    (l.map f).find? (fun kv => kv.1 == x) = (l.find? (fun kv => kv.1 == x)).map f := by
  induction l with
  | nil => rfl
  | cons kv l ih =>
      rw [List.map_cons, List.find?_cons, List.find?_cons, hf kv]
      cases h : kv.1 == x with
      | true => rfl
      | false => exact ih

theorem update_task_tables (s : TaskStore) (task : Task) (s2 : TaskStore)
    (h : update_task s task = .ok s2) :
    s2.all_tasks =
      s.all_tasks.map (fun kv => if kv.1 == task.uid then (kv.1, task) else kv) ∧
    s2.index_tasks = s.index_tasks := by
  unfold update_task at h
  cases hg : get_task s task.uid with
  | none => rw [hg] at h; cases h
  | some old =>
      rw [hg] at h
      injection h with h
      rw [← h]
      constructor
      · split
        · split <;> rfl
        · split <;> rfl
      · split
        · split <;> rfl
        · split <;> rfl

theorem update_task_some (s : TaskStore) (task : Task) (s2 : TaskStore)
    (h : update_task s task = .ok s2) : ∃ old, get_task s task.uid = some old := by
  unfold update_task at h
  cases hg : get_task s task.uid with
  | none => rw [hg] at h; cases h
  | some old => exact ⟨old, rfl⟩

theorem get_task_after_update (s : TaskStore) (task : Task) (s2 : TaskStore)
    (h : update_task s task = .ok s2) (x : TaskId) :
    get_task s2 x = if x = task.uid then some task else get_task s x := by
  obtain ⟨hall, -⟩ := update_task_tables s task s2 h
  obtain ⟨old, hold⟩ := update_task_some s task s2 h
  unfold get_task at hold ⊢
  rw [hall, find_key_map _ _ (fun kv => by split <;> rfl) x]
  by_cases hx : x = task.uid
  · rw [if_pos hx, hx]
    cases hf : s.all_tasks.find? (fun kv => kv.1 == task.uid) with
    | none => rw [hf] at hold; cases hold
    | some kv =>
        have hk := List.find?_some hf
        simp only [Option.map_some']
        rw [if_pos hk]
  · rw [if_neg hx]
    cases hf : s.all_tasks.find? (fun kv => kv.1 == x) with
    | none => rfl
    | some kv =>
        have hk := List.find?_some hf
        have hkey : kv.1 = x := by simpa using hk
        have hne : (kv.1 == task.uid) = false := by
          rw [hkey]
          exact beq_false_of_ne hx
        simp only [Option.map_some']
        simp [hne]

theorem uidKeyed_after_update (s : TaskStore) (task : Task) (s2 : TaskStore)
    (hk : UidKeyed s) (h : update_task s task = .ok s2) : UidKeyed s2 := by
  intro id u hu
  rw [get_task_after_update s task s2 h id] at hu
  by_cases hid : id = task.uid
  · rw [if_pos hid] at hu
    injection hu with hu
    rw [← hu, hid]
  · rw [if_neg hid] at hu
    exact hk id u hu

theorem failStep_spec (sa fi : DateTime) (er : ResponseError) (s : TaskStore)
    (id : TaskId) (s2 : TaskStore) (hk : UidKeyed s)
    (h : failStep sa fi er s id = .ok s2) :
    UidKeyed s2 ∧
    ∃ old, get_task s id = some old ∧
      ∀ x, get_task s2 x =
        if x = id then some (failRecord sa fi er old) else get_task s x := by
  unfold failStep at h
  cases hg : get_task s id with
  | none => rw [hg] at h; cases h
  | some task =>
      rw [hg] at h
      have huid : (failRecord sa fi er task).uid = id := hk id task hg
      refine ⟨uidKeyed_after_update s _ s2 hk h, task, rfl, fun x => ?_⟩
      have hx := get_task_after_update s _ s2 h x
      rw [huid] at hx
      exact hx

theorem foldFail_spec (sa fi : DateTime) (er : ResponseError) :
    ∀ (ids : List TaskId) (s s2 : TaskStore), UidKeyed s → ids.Nodup →
      ids.foldlM (failStep sa fi er) s = .ok s2 →
      UidKeyed s2 ∧
      (∀ x, x ∉ ids → get_task s2 x = get_task s x) ∧
      ∀ id ∈ ids, ∃ old, get_task s id = some old ∧
        get_task s2 id = some (failRecord sa fi er old) := by
  intro ids
  induction ids with
  | nil =>
      intro s s2 hk _ h
      simp only [List.foldlM_nil] at h
      injection h with h
      subst h
      exact ⟨hk, fun x _ => rfl, fun id hid => absurd hid (List.not_mem_nil id)⟩
  | cons a rest ih =>
      intro s s2 hk hnd h
      simp only [List.foldlM_cons] at h
      cases ha : failStep sa fi er s a with
      | error e => rw [ha] at h; cases h
      | ok s1 =>
          rw [ha] at h
          have h2 : rest.foldlM (failStep sa fi er) s1 = .ok s2 := h
          obtain ⟨hk1, old, hold, hstep⟩ := failStep_spec sa fi er s a s1 hk ha
          have hanr : a ∉ rest := (List.nodup_cons.1 hnd).1
          have hndr : rest.Nodup := (List.nodup_cons.1 hnd).2
          obtain ⟨hk2, hframe, hmem⟩ := ih s1 s2 hk1 hndr h2
          refine ⟨hk2, ?_, ?_⟩
          · intro x hx
            have hxa : x ≠ a := fun he => hx (he ▸ List.mem_cons_self a rest)
            have hxr : x ∉ rest := fun hr => hx (List.mem_cons_of_mem a hr)
            rw [hframe x hxr, hstep x, if_neg hxa]
          · intro id hid
            rcases List.mem_cons.1 hid with h1 | h2
            · subst h1
              refine ⟨old, hold, ?_⟩
              rw [hframe id hanr, hstep id, if_pos rfl]
            · obtain ⟨old2, hold2, hres⟩ := hmem id h2
              have hia : id ≠ a := fun he => hanr (he ▸ h2)
              rw [hstep id, if_neg hia] at hold2
              exact ⟨old2, hold2, hres⟩

/-! ### Lemmas about `register` -/

theorem register_ok_elim (st : SchedulerState) (now : DateTime) (k : KindWithContent)
    (t : Task) (st2 : SchedulerState) (h : register st now k = .ok (t, st2)) :
    optionDetailsOfKind k = .ok t.details ∧
    t = { uid := next_task_id st.store, enqueued_at := now, started_at := none,
          finished_at := none, error := none, details := t.details,
          status := .enqueued, kind := k } ∧
    st2 = { st with store := registerTables st.store t } := by
  unfold register at h
  cases hd : optionDetailsOfKind k with
  | error e => rw [hd] at h; cases h
  | ok d =>
      rw [hd] at h
      injection h with h
      injection h with h1 h2
      subst h1
      subst h2
      exact ⟨rfl, rfl, rfl⟩

theorem foldUpdateIndex_frame (u : TaskId) (idxs : List String) :
    ∀ s : TaskStore,
      ((idxs.foldl (fun acc index => update_index acc index (fun bm => insert u bm)) s).all_tasks
          = s.all_tasks) ∧
      ((idxs.foldl (fun acc index => update_index acc index (fun bm => insert u bm)) s).status
          = s.status) ∧
      ((idxs.foldl (fun acc index => update_index acc index (fun bm => insert u bm)) s).kind
          = s.kind) := by
  induction idxs with
  | nil => intro s; exact ⟨rfl, rfl, rfl⟩
  | cons a idxs ih =>
      intro s
      rw [List.foldl_cons]
      exact ih (update_index s a (fun bm => insert u bm))

theorem foldUpdateIndex_mono (u : TaskId) (idxs : List String) :
    ∀ (s : TaskStore) (i : String) (x : TaskId), x ∈ s.index_tasks i →
      x ∈ ((idxs.foldl (fun acc index =>
        update_index acc index (fun bm => insert u bm)) s).index_tasks i) := by
  induction idxs with
  | nil => intro s i x hx; exact hx
  | cons a idxs ih =>
      intro s i x hx
      rw [List.foldl_cons]
      apply ih
      unfold update_index
      by_cases hi : i = a
      · subst hi
        simp only [Function.update_same]
        exact Finset.mem_insert_of_mem hx
      · simp only [Function.update_noteq hi]
        exact hx

theorem foldUpdateIndex_self (u : TaskId) (idxs : List String) :
    ∀ (s : TaskStore) (i : String), i ∈ idxs →
      u ∈ ((idxs.foldl (fun acc index =>
        update_index acc index (fun bm => insert u bm)) s).index_tasks i) := by
  induction idxs with
  | nil => intro s i hi; cases hi
  | cons a idxs ih =>
      intro s i hi
      rcases List.mem_cons.1 hi with h1 | h2
      · subst h1
        rw [List.foldl_cons]
        apply foldUpdateIndex_mono
        unfold update_index
        simp only [Function.update_same]
        exact Finset.mem_insert_self u _
      · rw [List.foldl_cons]
        exact ih _ i h2

theorem registerIndexes_frame (s : TaskStore) (t : Task) :
    (registerIndexes s t).all_tasks = s.all_tasks ∧
    (registerIndexes s t).status = s.status ∧
    (registerIndexes s t).kind = s.kind := by
  unfold registerIndexes
  cases t.indexes with
  | none => exact ⟨rfl, rfl, rfl⟩
  | some idxs => exact foldUpdateIndex_frame t.uid idxs s

theorem registerIndexes_index_mono (s : TaskStore) (t : Task) (x : String) :
    s.index_tasks x ⊆ (registerIndexes s t).index_tasks x := by
  intro a ha
  unfold registerIndexes
  cases t.indexes with
  | none => exact ha
  | some idxs => exact foldUpdateIndex_mono t.uid idxs s x a ha

theorem registerIndexes_index_self (s : TaskStore) (t : Task) :
    ∀ i ∈ (t.indexes).getD [], t.uid ∈ (registerIndexes s t).index_tasks i := by
  intro i hi
  unfold registerIndexes
  cases hti : t.indexes with
  | none => rw [hti] at hi; cases hi
  | some idxs =>
      rw [hti] at hi
      exact foldUpdateIndex_self t.uid idxs s i hi

theorem registerTables_all_tasks (s : TaskStore) (t : Task) :
    (registerTables s t).all_tasks = s.all_tasks ++ [(t.uid, t)] := by
  unfold registerTables
  simp only [update_kind, update_status]
  exact (registerIndexes_frame _ t).1

theorem registerTables_mem_status (s : TaskStore) (t : Task) :
    t.uid ∈ (registerTables s t).status .enqueued := by
  unfold registerTables
  simp only [update_kind, update_status, Function.update_same]
  exact Finset.mem_insert_self _ _

theorem registerTables_mem_kind (s : TaskStore) (t : Task) :
    t.uid ∈ (registerTables s t).kind t.kind.as_kind := by
  unfold registerTables
  simp only [update_kind, update_status, Function.update_same]
  exact Finset.mem_insert_self _ _

theorem registerTables_mem_index (s : TaskStore) (t : Task) :
    ∀ i ∈ (t.indexes).getD [], t.uid ∈ (registerTables s t).index_tasks i := by
  intro i hi
  unfold registerTables
  simp only [update_kind, update_status]
  exact registerIndexes_index_self _ t i hi

theorem registerTables_status_subset (s : TaskStore) (t : Task) (x : Status) :
    s.status x ⊆ (registerTables s t).status x := by
  intro a ha
  unfold registerTables
  simp only [update_kind, update_status]
  rw [(registerIndexes_frame _ t).2.1]
  by_cases hx : x = Status.enqueued
  · subst hx
    rw [Function.update_same]
    exact Finset.mem_insert_of_mem ha
  · rw [Function.update_noteq hx]
    exact ha

theorem registerTables_kind_subset (s : TaskStore) (t : Task) (x : Kind) :
    s.kind x ⊆ (registerTables s t).kind x := by
  intro a ha
  unfold registerTables
  simp only [update_kind, update_status]
  by_cases hx : x = t.kind.as_kind
  · subst hx
    rw [Function.update_same]
    apply Finset.mem_insert_of_mem
    rw [(registerIndexes_frame _ t).2.2]
    exact ha
  · rw [Function.update_noteq hx, (registerIndexes_frame _ t).2.2]
    exact ha

theorem registerTables_index_subset (s : TaskStore) (t : Task) (x : String) :
    s.index_tasks x ⊆ (registerTables s t).index_tasks x := by
  intro a ha
  unfold registerTables
  simp only [update_kind, update_status]
  exact registerIndexes_index_mono _ t x ha

theorem head?_map_uid (l : List Task) : (l.map Task.uid).head? = l.head?.map Task.uid := by
  cases l <;> rfl

theorem exStore1_uidKeyed : UidKeyed exStore1 :=
  uidKeyed_of_entries _ (by decide)

theorem exStore3_uidKeyed : UidKeyed exStore3 :=
  uidKeyed_of_entries _ (by decide)

theorem exStore1_wf : StoreWF exStore1 := by
  refine ⟨exStore1_uidKeyed, ?_, ?_, ?_⟩
  · intro x id hid
    cases x with
    | enqueued =>
        have h0 : id = 0 := by simpa [exStore1] using hid
        subst h0
        exact ⟨exTask0, rfl, rfl⟩
    | processing => simp [exStore1] at hid
    | succeeded => simp [exStore1] at hid
    | failed => simp [exStore1] at hid
  · intro x id hid
    by_cases hx : x = Kind.indexCreation
    · subst hx
      have h0 : id = 0 := by simpa [exStore1] using hid
      subst h0
      exact ⟨exTask0, rfl, rfl⟩
    · simp [exStore1, hx] at hid
  · intro x id hid
    by_cases hx : x = "catto"
    · subst hx
      have h0 : id = 0 := by simpa [exStore1] using hid
      subst h0
      exact ⟨exTask0, rfl, by simp [Task.indexes, exTask0]⟩
    · simp [exStore1, hx] at hid

/-! ### The claims -/

/-- C9: every JSON array element accepted by `delete_documents` becomes a
document id of the registered `DocumentDeletion` task — a string element
verbatim, any other element as its compact JSON serialization — and no
element is ever rejected (the extraction is total and length-preserving). -/
theorem delete_documents_ids_spec (index_uid : String) (body : List Value) :
    delete_documents index_uid body
      = .documentDeletion index_uid (body.map claimDocumentId) ∧
    (deleteDocumentsIds body).length = body.length := by
  constructor
  · unfold delete_documents deleteDocumentsIds
    congr 1
    apply List.map_congr_left
    intro v _
    cases v <;> rfl
  · exact List.length_map _ _

/-- C10: converting a `Task` to a `TaskDump` preserves uid, status, details,
error and the three timestamps, sets the dump's `index_uid` to
`task.index_uid()` (none exactly for the DumpExport, Snapshot, CancelTask,
DeleteTasks and IndexSwap kinds), and converts the kind dropping only the
embedded index uid, the import's content-file uuid and the dump-export
payload. -/
theorem task_dump_preserves_fields (t : Task) :
    (TaskDump.of_task t).uid = t.uid ∧
    (TaskDump.of_task t).status = t.status ∧
    (TaskDump.of_task t).details = t.details ∧
    (TaskDump.of_task t).error = t.error ∧
    (TaskDump.of_task t).enqueued_at = t.enqueued_at ∧
    (TaskDump.of_task t).started_at = t.started_at ∧
    (TaskDump.of_task t).finished_at = t.finished_at ∧
    (TaskDump.of_task t).index_uid = t.index_uid ∧
    ((TaskDump.of_task t).index_uid = none ↔
      t.kind.as_kind ∈ [Kind.dumpExport, Kind.snapshot, Kind.cancelTask,
        Kind.deleteTasks, Kind.indexSwap]) ∧
    (TaskDump.of_task t).kind = KindDump.of_kind_with_content t.kind ∧
    kindDumpPreserves t.kind := by
  refine ⟨rfl, rfl, rfl, rfl, rfl, rfl, rfl, rfl, ?_, rfl, ?_⟩
  · cases ht : t.kind <;>
      simp [TaskDump.of_task, Task.index_uid, ht, KindWithContent.as_kind]
  · cases ht : t.kind <;>
      simp [kindDumpPreserves, ht, KindDump.of_kind_with_content]

/-- C3 (the divergence): `register` of a `DeleteTasks` kind reaches the
`todo!()` in `impl From<&KindWithContent> for Option<Details>` and panics
instead of returning an Enqueued task — the very call the repository's own
test `task_deletion_undeleteable` performs. -/
theorem register_deleteTasks_panics :
    register exStEmpty 0 (.deleteTasks "test_query" [0, 1])
      = .error "not yet implemented" := rfl

/-- C5 (the divergence): with a non-empty in-memory `processing_tasks` set
(task 0 of index "catto" mid-batch), the `status = Processing` query built
by `IndexStats::new` returns the empty list — the Processing filter is
intersected with the never-populated persistent `status[Processing]` bitmap
before the overlay runs — so `is_indexing` is false while a task of the
index is processing. -/
theorem processing_status_filter_bug :
    exStProc.processing_tasks.2 ≠ ∅ ∧
    get_tasks exStProc (isIndexingQuery "catto") = .ok [] ∧
    is_indexing exStProc "catto" = .ok false := by
  exact ⟨by decide, rfl, rfl⟩

/-- C1 (the counterexample): on a queue of tasks 0, 1, 2 the query
`from = 1` returns the single task 0 — the candidate range built from
`from` is exclusive, so task 1 is not the first element as the claim
requires. -/
theorem get_tasks_from_inclusive_counterexample :
    get_tasks exSt3 exQueryFrom1 = .ok [exTask0] ∧
    exQueryFrom1.«from» = some 1 ∧
    ((get_tasks exSt3 exQueryFrom1).toOption.bind List.head?).map Task.uid
      = some 0 ∧
    some (0 : TaskId) ≠ some (1 : TaskId) := by
  exact ⟨rfl, rfl, rfl, by decide⟩

/-- C2 (the counterexample): registering a `DocumentDeletion` stores
`details = none` (the `From<&KindWithContent>` conversion), while
`default_details` yields a populated `DocumentDeletion` record — the two
disagree, so `register` does not use `default_details`. -/
theorem register_details_counterexample :
    (register exStEmpty 0 (.documentDeletion "catto" ["a", "b"])).toOption.map
        (fun p => p.1.details) = some none ∧
    KindWithContent.default_details (.documentDeletion "catto" ["a", "b"])
      = .ok (some (.documentDeletion 2 none)) ∧
    (none : Option Details) ≠ some (.documentDeletion 2 none) := by
  exact ⟨rfl, rfl, by decide⟩

/-- C4 (the counterexample): with task 0 stored as Enqueued but currently
processing, the query `status = [Enqueued]` selects it from the persistent
bitmap and then the overlay rewrites its status to Processing — the
returned task's status is not among the queried values. -/
theorem get_tasks_status_filter_counterexample :
    get_tasks exStProc (Query.default.with_status .enqueued) = .ok [exOverTask0] ∧
    (Query.default.with_status .enqueued).status = some [Status.enqueued] ∧
    exOverTask0.status = .processing ∧
    Status.processing ∉ [Status.enqueued] := by
  exact ⟨rfl, rfl, rfl, by decide⟩

/-- C2 (amended): a successful `register(k)` returns a task with status
Enqueued, `enqueued_at` the registration instant, no start/finish dates, no
error, kind `k`, and details given by the `From<&KindWithContent>`
conversion (not by `default_details`). -/
theorem register_fields_corrected (st : SchedulerState) (now : DateTime)
    (k : KindWithContent) (t : Task) (st2 : SchedulerState)
    (h : register st now k = .ok (t, st2)) :
    t.status = .enqueued ∧ t.enqueued_at = now ∧ t.started_at = none ∧
    t.finished_at = none ∧ t.error = none ∧ t.kind = k ∧
    optionDetailsOfKind k = .ok t.details := by
  obtain ⟨hd, ht, -⟩ := register_ok_elim st now k t st2 h
  exact ⟨by rw [ht], by rw [ht], by rw [ht], by rw [ht], by rw [ht], by rw [ht], hd⟩

theorem register_fields_witness :
    exRegPairC2.1.status = .enqueued ∧ exRegPairC2.1.enqueued_at = 3 ∧
    exRegPairC2.1.started_at = none ∧ exRegPairC2.1.finished_at = none ∧
    exRegPairC2.1.error = none ∧
    exRegPairC2.1.kind = .indexCreation "catto" (some "mouse") ∧
    optionDetailsOfKind (.indexCreation "catto" (some "mouse"))
      = .ok exRegPairC2.1.details :=
  register_fields_corrected exStEmpty 3 (.indexCreation "catto" (some "mouse"))
    exRegPairC2.1 exRegPairC2.2 (by rfl)

/-- C6: after a successful `register(k)` with new uid `u`, `u` is in
`status[Enqueued]`, in `kind[k.as_kind()]` and in `index-tasks[i]` for every
index `i` of `k.indexes()`; and registration preserves the per-task
membership invariant of the whole store. -/
theorem register_membership_invariants (st : SchedulerState) (now : DateTime)
    (k : KindWithContent) (t : Task) (st2 : SchedulerState)
    (h : register st now k = .ok (t, st2)) :
    t.uid ∈ st2.store.status .enqueued ∧
    t.uid ∈ st2.store.kind k.as_kind ∧
    (∀ i ∈ (k.indexes).getD [], t.uid ∈ st2.store.index_tasks i) ∧
    (TaskMemInv st.store → TaskMemInv st2.store) := by
  obtain ⟨hd, ht, hst⟩ := register_ok_elim st now k t st2 h
  have hkind : t.kind = k := by rw [ht]
  have hindexes : t.indexes = k.indexes := by
    rw [Task.indexes_eq_kind_indexes, hkind]
  subst hst
  refine ⟨registerTables_mem_status _ t, ?_, ?_, ?_⟩
  · have hmk := registerTables_mem_kind st.store t
    rw [hkind] at hmk
    exact hmk
  · intro i hi
    rw [← hindexes] at hi
    exact registerTables_mem_index _ t i hi
  · intro hinv kv hkv
    rw [registerTables_all_tasks] at hkv
    rcases List.mem_append.1 hkv with hold | hnew
    · obtain ⟨h1, h2, h3⟩ := hinv kv hold
      exact ⟨registerTables_status_subset _ t _ h1,
             registerTables_kind_subset _ t _ h2,
             fun i hi => registerTables_index_subset _ t _ (h3 i hi)⟩
    · have hkv2 : kv = (t.uid, t) := by simpa using hnew
      subst hkv2
      refine ⟨?_, registerTables_mem_kind st.store t,
        fun i hi => registerTables_mem_index _ t i hi⟩
      have hstat : t.status = .enqueued := by rw [ht]
      rw [hstat]
      exact registerTables_mem_status _ t

theorem register_membership_witness :
    exRegPairSwap.1.uid ∈ exRegPairSwap.2.store.status .enqueued ∧
    exRegPairSwap.1.uid ∈ exRegPairSwap.2.store.kind
      (KindWithContent.indexSwap "catto" "doggo").as_kind ∧
    (∀ i ∈ ((KindWithContent.indexSwap "catto" "doggo").indexes).getD [],
      exRegPairSwap.1.uid ∈ exRegPairSwap.2.store.index_tasks i) ∧
    (TaskMemInv exStEmpty.store → TaskMemInv exRegPairSwap.2.store) :=
  register_membership_invariants exStEmpty 0 (.indexSwap "catto" "doggo")
    exRegPairSwap.1 exRegPairSwap.2 (by rfl)

/-- C7: when the batch processor fails as a whole, the closing transaction
of the tick persists, for every id of the batch, the stored record patched
to status Failed with the shared converted error, `started_at` the batch
start and `finished_at` the post-processing instant, and resets
`processing_tasks` to `(finished_at, ∅)`. -/
theorem tick_failure_marks_failed (st : SchedulerState) (ids : List TaskId)
    (started finished : DateTime) (err : Error) (s2 : SchedulerState)
    (hkey : UidKeyed st.store) (hnd : ids.Nodup)
    (h : tick_write st ids started finished (.error err) = .ok s2)
    (id : TaskId) (hid : id ∈ ids) :
    (∃ old, get_task st.store id = some old ∧
      get_task s2.store id
        = some (failRecord started finished err.intoResponseError old)) ∧
    s2.processing_tasks = (finished, ∅) := by
  simp only [tick_write] at h
  cases hf : ids.foldlM (failStep started finished err.intoResponseError) st.store with
  | error e => rw [hf] at h; cases h
  | ok s3 =>
      rw [hf] at h
      injection h with h
      obtain ⟨-, -, hmem⟩ := foldFail_spec _ _ _ ids st.store s3 hkey hnd hf
      obtain ⟨old, hold, hres⟩ := hmem id hid
      subst h
      exact ⟨⟨old, hold, hres⟩, rfl⟩

theorem tick_failure_witness :
    (∃ old, get_task exSt1.store 0 = some old ∧
      get_task exTickState.store 0
        = some (failRecord 10 20 (Error.indexNotFound "catto").intoResponseError old)) ∧
    exTickState.processing_tasks = (20, ∅) :=
  tick_failure_marks_failed exSt1 [0] 10 20 (.indexNotFound "catto") exTickState
    exStore1_uidKeyed (by decide) (by rfl) 0 (by decide)

/-- C8: every task returned by `get_tasks` whose uid is in the in-memory
processing set equals its stored record with only status rewritten to
Processing and `started_at` rewritten to the processing start; a returned
task whose uid is not in the set equals the stored record exactly. -/
theorem get_tasks_overlay_frame (st : SchedulerState) (q : Query) (l : List Task)
    (hkey : UidKeyed st.store) (h : get_tasks st q = .ok l)
    (t : Task) (ht : t ∈ l) :
    (t.uid ∈ st.processing_tasks.2 →
      (get_task st.store t.uid).map (fun u =>
        { u with status := Status.processing,
                 started_at := some st.processing_tasks.1 }) = some t) ∧
    (t.uid ∉ st.processing_tasks.2 → get_task st.store t.uid = some t) := by
  rcases get_tasks_ok_elim _ _ _ h with ⟨-, hl⟩ | ⟨tid, recs, hsome, hgex, hl⟩
  · subst hl; cases ht
  · subst hl
    obtain ⟨u, hu, huid, hkind, hover1, hover2⟩ := applyProcessing_spec _ _ t ht
    obtain ⟨id, hidmem, hgt⟩ := get_existing_tasks_mem _ _ _ hgex u hu
    have huideq : t.uid = id := by rw [huid]; exact hkey id u hgt
    have hgtu : get_task st.store t.uid = some u := by rw [huideq]; exact hgt
    constructor
    · intro hmem
      rw [hgtu]
      simp only [Option.map_some']
      rw [hover1 hmem]
    · intro hmem
      rw [hgtu, hover2 hmem]

theorem get_tasks_overlay_witness :
    (exOverTask0.uid ∈ exStProc.processing_tasks.2 →
      (get_task exStProc.store exOverTask0.uid).map (fun u =>
        { u with status := Status.processing,
                 started_at := some exStProc.processing_tasks.1 })
        = some exOverTask0) ∧
    (exOverTask0.uid ∉ exStProc.processing_tasks.2 →
      get_task exStProc.store exOverTask0.uid = some exOverTask0) :=
  get_tasks_overlay_frame exStProc Query.default [exOverTask0]
    exStore1_uidKeyed (by rfl) exOverTask0 (List.mem_singleton.2 rfl)

/-- C4 (amended): any list returned by `get_tasks` has at most `limit`
elements, and every returned task satisfies the uid, kind and index filters
as stated; the status filter holds of the task's *stored* record — the
processing overlay, applied after filtering, may rewrite the returned
status to Processing even when Processing was not among the queried
values. -/
theorem get_tasks_filters_corrected (st : SchedulerState) (q : Query)
    (l : List Task) (hwf : StoreWF st.store) (h : get_tasks st q = .ok l) :
    l.length ≤ q.limit ∧
    ∀ t ∈ l,
      (∀ uids, q.uid = some uids → t.uid ∈ uids) ∧
      (∀ xs, q.status = some xs →
        ∃ u, get_task st.store t.uid = some u ∧ u.status ∈ xs) ∧
      (∀ xs, q.kind = some xs → t.kind.as_kind ∈ xs) ∧
      (∀ xs, q.index_uid = some xs → ∃ i ∈ xs, i ∈ (t.indexes).getD []) := by
  rcases get_tasks_ok_elim _ _ _ h with ⟨-, hl⟩ | ⟨tid, recs, hsome, hgex, hl⟩
  · subst hl
    exact ⟨Nat.zero_le _, fun t ht => absurd ht (List.not_mem_nil t)⟩
  · subst hl
    constructor
    · rw [applyProcessing_length, get_existing_tasks_length _ _ _ hgex,
        List.length_take]
      exact Nat.min_le_left _ _
    · intro t ht
      obtain ⟨u, hu, huid, hkind, hover1, hover2⟩ := applyProcessing_spec _ _ t ht
      obtain ⟨id, hidmem, hgt⟩ := get_existing_tasks_mem _ _ _ hgex u hu
      have hidc : id ∈ queryCandidates st.store q tid :=
        List.mem_reverse.1 (List.mem_of_mem_take hidmem)
      obtain ⟨huidf, hstatf, hkindf, hidxf⟩ := mem_queryCandidates _ _ _ _ hidc
      have huideq : t.uid = id := by rw [huid]; exact hwf.uid_keyed id u hgt
      refine ⟨?_, ?_, ?_, ?_⟩
      · intro uids huids
        rw [huideq]
        exact huidf uids huids
      · intro xs hxs
        obtain ⟨x, hx, hmem⟩ := hstatf xs hxs
        obtain ⟨u2, hu2, hu2s⟩ := hwf.status_mem x id hmem
        exact ⟨u2, by rw [huideq]; exact hu2, by rw [hu2s]; exact hx⟩
      · intro xs hxs
        obtain ⟨x, hx, hmem⟩ := hkindf xs hxs
        obtain ⟨u2, hu2, hu2k⟩ := hwf.kind_mem x id hmem
        have heq : u = u2 := (Option.some.inj (hu2.symm.trans hgt)).symm
        rw [hkind, heq, hu2k]
        exact hx
      · intro xs hxs
        obtain ⟨x, hx, hmem⟩ := hidxf xs hxs
        obtain ⟨u2, hu2, hu2i⟩ := hwf.index_mem x id hmem
        have heq : u = u2 := (Option.some.inj (hu2.symm.trans hgt)).symm
        refine ⟨x, hx, ?_⟩
        have hti : t.indexes = u.indexes := by
          rw [Task.indexes_eq_kind_indexes, Task.indexes_eq_kind_indexes, hkind]
        rw [hti, heq]
        exact hu2i

theorem get_tasks_filters_witness :
    ([exTask0] : List Task).length ≤ exFilterQuery.limit ∧
    ∀ t ∈ ([exTask0] : List Task),
      (∀ uids, exFilterQuery.uid = some uids → t.uid ∈ uids) ∧
      (∀ xs, exFilterQuery.status = some xs →
        ∃ u, get_task exSt1.store t.uid = some u ∧ u.status ∈ xs) ∧
      (∀ xs, exFilterQuery.kind = some xs → t.kind.as_kind ∈ xs) ∧
      (∀ xs, exFilterQuery.index_uid = some xs →
        ∃ i ∈ xs, i ∈ (t.indexes).getD []) :=
  get_tasks_filters_corrected exSt1 exFilterQuery [exTask0] exStore1_wf (by rfl)

/-- C1 (amended): the candidate set of `get_tasks` is the *exclusive* range
`{0..cap}` with `cap = min(from.unwrap_or(next_uid), next_uid)`: for a query
with `from = f` (1 ≤ f ≤ next_uid − 1), no other filters and `limit ≥ 1`,
the returned uids are the top `limit` of `{0,…,f−1}` and the first element
is the task with uid `f − 1` — task `f` itself is not returned. -/
theorem get_tasks_from_bound_corrected (st : SchedulerState)
    (tid f limit : Nat) (l : List Task)
    (hkey : UidKeyed st.store)
    (hlast : last_task_id st.store = some tid)
    (hf1 : 1 ≤ f) (hf2 : f ≤ tid - 1) (hlim : 1 ≤ limit)
    (h : get_tasks st
      { limit := limit, «from» := some f, status := none, kind := none,
        index_uid := none, uid := none } = .ok l) :
    l.map Task.uid = (List.range f).reverse.take limit ∧
    (l.head?).map Task.uid = some (f - 1) := by
  rcases get_tasks_ok_elim _ _ _ h with ⟨hn, -⟩ | ⟨tid2, recs, hsome, hgex, hl⟩
  · rw [hn] at hlast; cases hlast
  · rw [hlast] at hsome
    have he : tid = tid2 := by injection hsome
    subst he
    have hmin : min f tid = f := Nat.min_eq_left (le_trans hf2 (Nat.sub_le tid 1))
    have hq : queryCandidates st.store
        { limit := limit, «from» := some f, status := none, kind := none,
          index_uid := none, uid := none } tid = List.range f := by
      simp [queryCandidates, filterBitmap, filterUids, hmin]
    rw [hq] at hgex
    have hmap : recs.map Task.uid = (List.range f).reverse.take limit :=
      get_existing_tasks_map_uid st.store hkey _ recs hgex
    subst hl
    have hlm : (applyProcessing st.processing_tasks recs).map Task.uid
        = (List.range f).reverse.take limit := by
      rw [applyProcessing_map_uid, hmap]
    refine ⟨hlm, ?_⟩
    have hhead : ((List.range f).reverse.take limit).head? = some (f - 1) := by
      obtain ⟨n, rfl⟩ : ∃ n, f = n + 1 := ⟨f - 1, (Nat.succ_pred_eq_of_pos hf1).symm⟩
      obtain ⟨m, rfl⟩ : ∃ m, limit = m + 1 :=
        ⟨limit - 1, (Nat.succ_pred_eq_of_pos hlim).symm⟩
      rw [List.range_succ, List.reverse_append]
      simp
    rw [← head?_map_uid, hlm]
    exact hhead

theorem get_tasks_from_bound_witness :
    exFromResult.map Task.uid = (List.range 1).reverse.take 20 ∧
    (exFromResult.head?).map Task.uid = some (1 - 1) :=
  get_tasks_from_bound_corrected exSt3 3 1 20 exFromResult exStore3_uidKeyed
    (by rfl) (by decide) (by decide) (by decide) (by rfl)

end Meili


